import Mathlib

/-!
# Verification of the MpqViewer resolution-and-extraction pipeline

Shallow embedding of the core logic of OpenDiablo2/MpqViewer
(`src/main.go`, both program variants, and `src/cmd/MpqViewer/main.go`).
Go strings are modelled as byte lists (`List Nat`), matching Go's
byte-indexed string semantics; all paths in play are ASCII, where Go's
`strings.ToLower` acts byte-wise.  Byte codes used throughout:
`47` = forward slash, `92` = backslash, `44` = comma, `46` = dot.

The MPQ archive type is an external collaborator; it is modelled by its
interface (`FileExists`, `ReadFile`, `GetFileList`, `FileName`), with
`ReadFile` allowed to return data, return an error, or panic, exactly the
three behaviours the Go code distinguishes.
-/

set_option autoImplicit false

namespace MpqViewer

/-- A Go string, viewed as its byte sequence. -/
abbrev GoStr := List Nat

/-- Byte-wise lower-casing of an ASCII byte, as `strings.ToLower` acts on
ASCII input: bytes 65..90 (uppercase letters) are shifted to 97..122. -/
def lowerByte (b : Nat) : Nat :=
  if 65 ≤ b ∧ b ≤ 90 then b + 32 else b

/-- Models `strings.ToLower` on ASCII input (byte-wise lower-casing). -/
def goToLower (s : GoStr) : GoStr :=
  s.map lowerByte

/-- Models `strings.ReplaceAll(s, old, new)` for single-byte `old`/`new`. -/
def replaceByte (a b : Nat) (s : GoStr) : GoStr :=
  s.map (fun c => if c = a then b else c)

/-- `normalize` from src/main.go:235 / src/main.go:529: replace every
backslash with a forward slash. -/
def normalize (filePath : GoStr) : GoStr :=
  replaceByte 92 47 filePath

/-- `denormalize` from src/main.go:242 / src/main.go:536: replace every
forward slash with a backslash, then strip a single leading backslash if
present (`strings.HasPrefix` guard, so this is safe on the empty string). -/
def denormalize (filePath : GoStr) : GoStr :=
  let fp := replaceByte 47 92 filePath
  if fp.head? = some 92 then fp.tail else fp

/-- The spec's "p with its leading (forward) separator removed". -/
def stripLeadingSlash (p : GoStr) : GoStr :=
  if p.head? = some 47 then p.tail else p

/-- Result of the collaborator's `ReadFile`: Go lets it return data,
return an error, or panic (the panic case is what `archiveReadFile`
recovers from). -/
inductive ReadResult where
  | ok (data : List Nat)
  | err (msg : String)
  | panicked (msg : String)
deriving DecidableEq

/-- The archive collaborator (`mpq.MPQ` / `d2mpq.MPQ`), modelled by the
interface the pipeline uses: display name, existence check, read, and
embedded-listfile listing (which may fail with an error). -/
structure MPQ where
  fileName : GoStr
  fileExists : GoStr → Bool
  readFile : GoStr → ReadResult
  getFileList : Except String (List GoStr)

/-- Go error values as classified by `errors.Cause` in `extractAllFiles`:
a wrap of the sentinel `ErrNotFound`, a wrap of the sentinel `ErrFileRead`,
or any other error (whose cause is neither sentinel). -/
inductive GoErr where
  | notFound (path : GoStr)
  | fileRead (detail : String)
  | other (msg : String)
deriving DecidableEq

/-- Result of running a piece of Go code that can also crash with an
uncaught panic (no enclosing `recover`). -/
inductive RunResult (α : Type) where
  | ok (a : α)
  | err (e : GoErr)
  | crash (msg : String)
deriving DecidableEq

/-- `archiveReadFile` from src/main.go:220 / src/main.go:514 /
src/cmd/MpqViewer/main.go:170: delegates to the collaborator's `ReadFile`;
a panic is recovered and wrapped as `errors.Wrap(ErrFileRead, ...)` (cause
`ErrFileRead`), while an ordinary returned error is passed through
`errors.WithStack`, which preserves its own cause. -/
def archiveReadFile (archive : MPQ) (filePath : GoStr) : Except GoErr (List Nat) :=
  match archive.readFile filePath with
  | .ok data => .ok data
  | .err m => .error (GoErr.other m)
  | .panicked m => .error (GoErr.fileRead m)

/-- The archive-scanning loop of `readFile` (src/main.go:205-216): first
archive whose `FileExists` holds serves the read; exhaustion yields a wrap
of `ErrNotFound`. -/
def readFileLoop (archives : List MPQ) (key : GoStr) : RunResult (List Nat × GoStr) :=
  match archives with
  | [] => .err (GoErr.notFound key)
  | a :: rest =>
    if a.fileExists key then
      match archiveReadFile a key with
      | .error e => .err e
      | .ok data => .ok (data, a.fileName)
    else
      readFileLoop rest key

/-- The lookup key computed at the top of `readFile`
(src/main.go:200-204): lower-case, replace `/` by `\`, then drop the first
byte when it is a backslash.  On the empty string this is `[]`, but the Go
code never reaches that value: see `readFile` below. -/
def readFileKey (filePath : GoStr) : GoStr :=
  match replaceByte 47 92 (goToLower filePath) with
  | [] => []
  | b :: rest => if b = 92 then rest else b :: rest

/-- `readFile` from src/main.go:198 / src/main.go:492 /
src/cmd/MpqViewer/main.go:149.  The leading-separator strip is written
`if filePath[0] == '\\'` in Go, an unguarded byte index: on an empty
lookup path Go panics with an index-out-of-range runtime error, which no
enclosing function recovers, so the run crashes. -/
def readFile (archives : List MPQ) (filePath : GoStr) : RunResult (List Nat × GoStr) :=
  match replaceByte 47 92 (goToLower filePath) with
  | [] => .crash "runtime error: index out of range"
  | b :: rest => readFileLoop archives (if b = 92 then rest else b :: rest)

/-- `getFilePathsFromListfile` from src/main.go:122 / src/main.go:394,
after the listfile has been read and split into lines (the
`bufio.Scanner` loop): each line is denormalized and kept when some
archive reports it exists (the inner loop `break`s at the first match). -/
def getFilePathsFromListfile (archives : List MPQ) (lines : List GoStr) : List GoStr :=
  match lines with
  | [] => []
  | line :: rest =>
    let fp := denormalize line
    if archives.any (fun a => a.fileExists fp) then
      fp :: getFilePathsFromListfile archives rest
    else
      getFilePathsFromListfile archives rest

/-- `getFilePathsFromBundledListfile` from src/main.go:417: same filtering
loop as `getFilePathsFromListfile`, over the lines of the bundled listfile
data passed as argument. -/
def getFilePathsFromBundledListfile (archives : List MPQ) (lines : List GoStr) : List GoStr :=
  match lines with
  | [] => []
  | line :: rest =>
    let fp := denormalize line
    if archives.any (fun a => a.fileExists fp) then
      fp :: getFilePathsFromBundledListfile archives rest
    else
      getFilePathsFromBundledListfile archives rest

/-- `getFilePathsFromEmbeddedListfile` from src/main.go:144 /
src/main.go:435: concatenates each archive's `GetFileList` in order; the
first listing error aborts (it is fatal in `main`). -/
def getFilePathsFromEmbeddedListfile (archives : List MPQ) : Except String (List GoStr) :=
  match archives with
  | [] => .ok []
  | a :: rest =>
    match a.getFileList with
    | .error e => .error e
    | .ok files =>
      match getFilePathsFromEmbeddedListfile rest with
      | .error e => .error e
      | .ok more => .ok (files ++ more)

/-- Models `strings.Split(s, sep)` for a single-byte separator: the
subslices between separators.  As in Go, splitting the empty string yields
`[[]]` and the result is never empty. -/
def goSplit (sep : Nat) : GoStr → List GoStr
  | [] => [[]]
  | b :: rest =>
    if b = sep then
      [] :: goSplit sep rest
    else
      match goSplit sep rest with
      | [] => [[b]]
      | g :: gs => (b :: g) :: gs

/-- Models `filepath.Base` from Go's stdlib (collaborator): strip trailing
separators and keep the last path element; empty input gives `"."`, an
all-separator input gives `"/"`. -/
def goBase (s : GoStr) : GoStr :=
  if s = [] then [46]
  else
    let t := (s.reverse.dropWhile (fun b => b = 47)).reverse
    if t = [] then [47]
    else (t.reverse.takeWhile (fun b => b ≠ 47)).reverse

/-- The bytes of `s` before its last dot; `s` itself when it has no dot. -/
def beforeLastDot (s : GoStr) : GoStr :=
  if 46 ∈ s then ((s.reverse.dropWhile (fun b => b ≠ 46)).drop 1).reverse
  else s

/-- Models `pathutil.FileName` from mewkiz/pkg (collaborator): the base
file name of the path with its extension stripped. -/
def pathFileName (s : GoStr) : GoStr :=
  beforeLastDot (goBase s)

/-- Models `filepath.Join` from Go's stdlib (collaborator) on the
already-clean inputs this program builds: the non-empty elements joined
with a forward slash (the dot-segment cleaning `filepath.Join` also
performs is not observable on these inputs). -/
def goJoin (elems : List GoStr) : GoStr :=
  List.intercalate [47] (elems.filter (fun e => ¬ e.isEmpty))

/-- Models `filepath.Dir` from Go's stdlib (collaborator): everything up
to (excluding) the last separator; `"."` when there is none. -/
def goDir (s : GoStr) : GoStr :=
  let pre := (s.reverse.dropWhile (fun b => b ≠ 47)).reverse
  if pre = [] then [46]
  else if pre = [47] then [47]
  else pre.dropLast

/-- The bytes of the literal `"_dump_"` output root. -/
def dumpRoot : GoStr := [95, 100, 117, 109, 112, 95]

/-- The destination path computed in `extractFile`
(src/main.go:474-478): `normalize(filepath.Join("_dump_", archiveDir,
filePath))` with `archiveDir = pathutil.FileName(archiveName)`, lowered
in full when the `-lower` flag is set (the flag exists only in the second
src/main.go variant; the others behave as `lower = false`). -/
def dstPathOf (archiveName filePath : GoStr) (lower : Bool) : GoStr :=
  let archiveDir := pathFileName archiveName
  let d := normalize (goJoin [dumpRoot, archiveDir, filePath])
  if lower then goToLower d else d

/-- The file-system collaborator of `extractFile`: `os.MkdirAll` and
`ioutil.WriteFile` results, `some msg` being a returned error. -/
structure FS where
  mkdirAll : GoStr → Option String
  writeFile : GoStr → List Nat → Option String

/-- `extractFile` from src/main.go:177 / src/main.go:468 /
src/cmd/MpqViewer/main.go:130: read the file via `readFile`, compute the
destination path, create its directory and write the bytes.  Go returns
only an error; the embedding returns the performed write `(dstPath, data)`
on success to make the effect explicit.  Directory-creation and write
errors go through `errors.WithStack`, so their cause is the underlying
OS error, not one of the sentinels. -/
def extractFile (fs : FS) (archives : List MPQ) (filePath : GoStr) (lower : Bool) :
    RunResult (GoStr × List Nat) :=
  match readFile archives filePath with
  | .crash m => .crash m
  | .err e => .err e
  | .ok (data, archiveName) =>
    let dstPath := dstPathOf archiveName filePath lower
    match fs.mkdirAll (goDir dstPath) with
    | some msg => .err (GoErr.other msg)
    | none =>
      match fs.writeFile dstPath data with
      | some msg => .err (GoErr.other msg)
      | none => .ok (dstPath, data)

/-- The per-path outcome observable from `extractAllFiles`: a successful
write, a logged not-found skip, or a logged read-error skip. -/
inductive Outcome where
  | extracted (dst : GoStr)
  | notFound
  | readError (detail : String)
deriving DecidableEq

/-- How a run of `extractAllFiles` ends early: a fatal returned error
(`log.Fatalf` in `main`) or an uncaught panic. -/
inductive Halt where
  | fatal (e : GoErr)
  | crash (msg : String)
deriving DecidableEq

/-- `extractAllFiles` from src/main.go:158 / src/main.go:449 /
src/cmd/MpqViewer/main.go:113: per path, `errors.Cause` of a failure is
matched against the sentinels — `ErrNotFound` and `ErrFileRead` are
logged and skipped with `continue`; any other error is returned at once,
ending the loop.  The embedding returns the per-path outcomes in order
together with how (if at all) the loop ended early. -/
def extractAllFiles (fs : FS) (archives : List MPQ) (lower : Bool) :
    List GoStr → List Outcome × Option Halt
  | [] => ([], none)
  | p :: ps =>
    match extractFile fs archives p lower with
    | .ok (dst, _) =>
      let r := extractAllFiles fs archives lower ps
      (Outcome.extracted dst :: r.1, r.2)
    | .err (GoErr.notFound _) =>
      let r := extractAllFiles fs archives lower ps
      (Outcome.notFound :: r.1, r.2)
    | .err (GoErr.fileRead m) =>
      let r := extractAllFiles fs archives lower ps
      (Outcome.readError m :: r.1, r.2)
    | .err e => ([], some (Halt.fatal e))
    | .crash m => ([], some (Halt.crash m))

/-- The candidate-list selection of `main` in the first src/main.go
variant (src/main.go:84-112): a non-empty `-files` argument is split on
commas; otherwise `-a` is required and either the external listfile (when
`-l` is non-empty) or the embedded listfiles are used; finally every
selected path is denormalized.  Listfile reading is I/O: the lines of a
successfully read listfile are a parameter. -/
def selectFilePathsV1 (raw : GoStr) (all : Bool) (listfilePath : GoStr)
    (listfileLines : List GoStr) (archives : List MPQ) : Except String (List GoStr) :=
  let filePaths := if 0 < raw.length then goSplit 44 raw else []
  let chosen : Except String (List GoStr) :=
    if filePaths.isEmpty then
      if !all then .error "no files to extract specified; specify either FILE or -a"
      else if 0 < listfilePath.length then
        .ok (getFilePathsFromListfile archives listfileLines)
      else
        getFilePathsFromEmbeddedListfile archives
    else .ok filePaths
  chosen.map (List.map denormalize)

/-- The candidate-list selection of `main` in the second src/main.go
variant (src/main.go:346-384): a non-empty `-files` argument is split on
commas; otherwise `-a` is required and the strategy is the embedded
listfiles when `-embedded` is set, else the external listfile when `-l`
is non-empty, else the bundled listfile; finally every selected path is
denormalized. -/
def selectFilePathsV2 (raw : GoStr) (all embedded : Bool) (listfilePath : GoStr)
    (listfileLines bundledLines : List GoStr) (archives : List MPQ) :
    Except String (List GoStr) :=
  let filePaths := if 0 < raw.length then goSplit 44 raw else []
  let chosen : Except String (List GoStr) :=
    if filePaths.isEmpty then
      if !all then .error "no files to extract specified; specify either FILE or -a"
      else if embedded then
        getFilePathsFromEmbeddedListfile archives
      else if 0 < listfilePath.length then
        .ok (getFilePathsFromListfile archives listfileLines)
      else
        .ok (getFilePathsFromBundledListfile archives bundledLines)
    else .ok filePaths
  chosen.map (List.map denormalize)

/-! ## Helper lemmas -/

theorem lowerByte_idem (b : Nat) : lowerByte (lowerByte b) = lowerByte b := by
  by_cases h : 65 ≤ b ∧ b ≤ 90
  · have h1 : lowerByte b = b + 32 := by simp [lowerByte, h]
    have h2 : ¬ (65 ≤ b + 32 ∧ b + 32 ≤ 90) := by omega
    rw [h1]
    simp only [lowerByte, if_neg h2]
  · have h1 : lowerByte b = b := by simp [lowerByte, h]
    rw [h1, h1]

theorem replaceByte_replaceByte (p : GoStr) (h : 92 ∉ p) :
    replaceByte 92 47 (replaceByte 47 92 p) = p := by
  induction p with
  | nil => rfl
  | cons c rest ih =>
    simp only [List.mem_cons, not_or] at h
    obtain ⟨hc92, hrest⟩ := h
    have hc92' : c ≠ 92 := fun he => hc92 he.symm
    have key := ih hrest
    simp only [replaceByte, List.map_cons] at key ⊢
    by_cases h47 : c = 47
    · subst h47
      simpa using congrArg (List.cons 47) key
    · rw [if_neg h47, if_neg hc92']
      exact congrArg (List.cons c) key

theorem mem_replaceByte_ne (a b : Nat) (hab : b ≠ a) (p : GoStr) :
    a ∉ replaceByte a b p := by
  intro hm
  simp only [replaceByte, List.mem_map] at hm
  obtain ⟨c, _, hc⟩ := hm
  by_cases h : c = a
  · rw [if_pos h] at hc; exact hab hc
  · rw [if_neg h] at hc; exact h hc

theorem replaceByte_eq_nil_iff (a b : Nat) (p : GoStr) :
    replaceByte a b p = [] ↔ p = [] := by
  simp [replaceByte]

theorem goToLower_eq_nil_iff (p : GoStr) : goToLower p = [] ↔ p = [] := by
  simp [goToLower]

/-- For a non-empty path, `readFile` scans the archives with the key
`readFileKey filePath`. -/
theorem readFile_eq_loop (archives : List MPQ) (filePath : GoStr) (h : filePath ≠ []) :
    readFile archives filePath = readFileLoop archives (readFileKey filePath) := by
  unfold readFile readFileKey
  have hne : replaceByte 47 92 (goToLower filePath) ≠ [] := by
    rw [Ne, replaceByte_eq_nil_iff, goToLower_eq_nil_iff]
    exact h
  match hm : replaceByte 47 92 (goToLower filePath) with
  | [] => exact absurd hm hne
  | b :: rest => rfl

/-! ## C4: path round-trip -/

/-- C4: for every canonical (forward-separated, i.e. backslash-free) path
`p`, converting to native form (`denormalize`) and back to canonical form
(`normalize`) yields `p` with its leading separator removed; both
conversions are total Lean functions, hence never fail. -/
theorem round_trip_drops_leading_separator (p : GoStr) (h : 92 ∉ p) :
    normalize (denormalize p) = stripLeadingSlash p := by
  cases p with
  | nil => rfl
  | cons c rest =>
    simp only [List.mem_cons, not_or] at h
    obtain ⟨hc92, hrest⟩ := h
    have hc92' : c ≠ 92 := fun he => hc92 he.symm
    have key := replaceByte_replaceByte rest hrest
    by_cases h47 : c = 47
    · subst h47
      have h1 : denormalize (47 :: rest) = replaceByte 47 92 rest := by
        simp [denormalize, replaceByte]
      have h2 : stripLeadingSlash (47 :: rest) = rest := by
        simp [stripLeadingSlash]
      rw [h1, h2]
      exact key
    · have h1 : denormalize (c :: rest) = c :: replaceByte 47 92 rest := by
        simp [denormalize, replaceByte, h47, hc92']
      have h2 : stripLeadingSlash (c :: rest) = c :: rest := by
        simp [stripLeadingSlash, h47]
      rw [h1, h2]
      simp only [normalize, replaceByte, List.map_cons, if_neg hc92']
      simp only [replaceByte] at key
      exact congrArg (List.cons c) key

/-- Witness for C4 at `p = "/data/x"`. -/
theorem round_trip_drops_leading_separator_witness :
    (92 ∉ ([47, 100, 97, 116, 97, 47, 120] : GoStr)) ∧
      normalize (denormalize [47, 100, 97, 116, 97, 47, 120]) =
        stripLeadingSlash [47, 100, 97, 116, 97, 47, 120] :=
  ⟨by decide, round_trip_drops_leading_separator [47, 100, 97, 116, 97, 47, 120] (by decide)⟩

/-! ## C5: empty lookup path -/

/-- C5 (code bug): `denormalize` is indeed safe on the empty path and on
the path consisting only of a leading separator, producing the empty
native path, but the leading-separator strip inside `readFile`
(`filePath[0]` in Go) does index byte 0 of the empty lookup string: on an
empty path it is an uncaught index-out-of-range panic that crashes the
run, contradicting the claim that it never accesses index 0 of an empty
string. -/
theorem empty_path_crashes_readFile :
    denormalize [] = ([] : GoStr) ∧ denormalize [47] = ([] : GoStr) ∧
      readFile [] [] = RunResult.crash "runtime error: index out of range" := by
  refine ⟨rfl, rfl, rfl⟩

/-! ## Concrete fixtures used by the witnesses -/

/-- An archive that holds every path with content `"1"`. -/
def archA : MPQ :=
  { fileName := [97], fileExists := fun _ => true,
    readFile := fun _ => .ok [49], getFileList := .ok [] }

/-- An archive that holds every path with content `"2"`. -/
def archB : MPQ :=
  { fileName := [98], fileExists := fun _ => true,
    readFile := fun _ => .ok [50], getFileList := .ok [] }

/-- An archive that reports every path as present but panics on read. -/
def archPanic : MPQ :=
  { fileName := [99], fileExists := fun _ => true,
    readFile := fun _ => .panicked "boom", getFileList := .ok [] }

/-- A file system on which every operation succeeds. -/
def fsOk : FS :=
  { mkdirAll := fun _ => none, writeFile := fun _ _ => none }

/-- A file system on which directory creation always fails. -/
def fsMkdirFails : FS :=
  { mkdirAll := fun _ => some "permission denied", writeFile := fun _ _ => none }

/-! ## C1: priority order of the archive chain -/

/-- C1: when the archives at index 0 and index 1 both report that the
lookup key of `p` exists, `readFile` behaves exactly as if only the
archive at index 0 were loaded — the read is served by it, later archives
are never consulted — and a successful result carries index 0's data and
display name. -/
theorem first_archive_serves_read (a b : MPQ) (rest : List MPQ) (p : GoStr)
    (hp : p ≠ [])
    (ha : a.fileExists (readFileKey p) = true)
    (_hb : b.fileExists (readFileKey p) = true) :
    readFile (a :: b :: rest) p = readFile [a] p ∧
      ∀ d n, readFile (a :: b :: rest) p = RunResult.ok (d, n) →
        n = a.fileName ∧ a.readFile (readFileKey p) = ReadResult.ok d := by
  have h1 := readFile_eq_loop (a :: b :: rest) p hp
  have h2 := readFile_eq_loop [a] p hp
  constructor
  · rw [h1, h2]
    simp only [readFileLoop, ha, if_true]
  · intro d n hok
    rw [h1] at hok
    simp only [readFileLoop, ha, if_true] at hok
    cases harr : a.readFile (readFileKey p) with
    | ok data =>
      rw [show archiveReadFile a (readFileKey p) = Except.ok data by
            simp [archiveReadFile, harr]] at hok
      simp only [RunResult.ok.injEq, Prod.mk.injEq] at hok
      exact ⟨hok.2.symm, congrArg ReadResult.ok hok.1⟩
    | err m =>
      rw [show archiveReadFile a (readFileKey p) = Except.error (GoErr.other m) by
            simp [archiveReadFile, harr]] at hok
      exact absurd hok (by simp)
    | panicked m =>
      rw [show archiveReadFile a (readFileKey p) = Except.error (GoErr.fileRead m) by
            simp [archiveReadFile, harr]] at hok
      exact absurd hok (by simp)

/-- Witness for C1: with two archives that both hold path `"x"`, the read
is served by the first. -/
theorem first_archive_serves_read_witness :
    readFile [archA, archB] [120] = readFile [archA] [120] ∧
      ∀ d n, readFile [archA, archB] [120] = RunResult.ok (d, n) →
        n = archA.fileName ∧ archA.readFile (readFileKey [120]) = ReadResult.ok d :=
  first_archive_serves_read archA archB [] [120] (by decide) rfl rfl

/-! ## C10: no fallback to a lower-priority archive -/

/-- C10: once the first archive reports that the path exists, a failing
read — a returned error or a recovered panic — is returned for the path
immediately: the result is the same for every tail of lower-priority
archives (even tails holding a readable copy), and it is an error. -/
theorem no_fallback_after_failed_read (a : MPQ) (rest : List MPQ) (p : GoStr)
    (hp : p ≠ [])
    (ha : a.fileExists (readFileKey p) = true)
    (hr : ∀ d, a.readFile (readFileKey p) ≠ ReadResult.ok d) :
    readFile (a :: rest) p = readFile [a] p ∧
      ∃ e, readFile (a :: rest) p = RunResult.err e := by
  have h1 := readFile_eq_loop (a :: rest) p hp
  have h2 := readFile_eq_loop [a] p hp
  constructor
  · rw [h1, h2]
    simp only [readFileLoop, ha, if_true]
  · rw [h1]
    simp only [readFileLoop, ha, if_true]
    cases harr : a.readFile (readFileKey p) with
    | ok data => exact absurd harr (hr data)
    | err m =>
      refine ⟨GoErr.other m, ?_⟩
      rw [show archiveReadFile a (readFileKey p) = Except.error (GoErr.other m) by
            simp [archiveReadFile, harr]]
    | panicked m =>
      refine ⟨GoErr.fileRead m, ?_⟩
      rw [show archiveReadFile a (readFileKey p) = Except.error (GoErr.fileRead m) by
            simp [archiveReadFile, harr]]

/-- Witness for C10: the panicking archive owns path `"x"`, so the read
fails even though `archB` (lower priority) holds a readable copy. -/
theorem no_fallback_after_failed_read_witness :
    readFile [archPanic, archB] [120] = readFile [archPanic] [120] ∧
      ∃ e, readFile [archPanic, archB] [120] = RunResult.err e :=
  no_fallback_after_failed_read archPanic [archB] [120] (by decide) rfl
    (fun d h => by simp [archPanic] at h)

/-! ## C2: panic recovery and per-path failure isolation -/

/-- C2: a panic raised by the collaborator's read is recovered by
`archiveReadFile` and converted into an error wrapping the `ErrFileRead`
sentinel with the panic's detail; and whenever `extractFile` fails on a
path `x` with a NotFound- or ReadError-caused error, `extractAllFiles`
records the corresponding skip outcome for `x` and processes the
remaining batch exactly as it would have without `x` — neither error
class ends the loop. -/
theorem panic_becomes_read_error_and_is_skipped :
    (∀ (a : MPQ) (k : GoStr) (m : String), a.readFile k = ReadResult.panicked m →
        archiveReadFile a k = Except.error (GoErr.fileRead m)) ∧
    (∀ (fs : FS) (archives : List MPQ) (lower : Bool) (x : GoStr) (ys : List GoStr),
        ((∃ q, extractFile fs archives x lower = RunResult.err (GoErr.notFound q)) ∨
         (∃ m, extractFile fs archives x lower = RunResult.err (GoErr.fileRead m))) →
        ∃ o, (o = Outcome.notFound ∨ ∃ m, o = Outcome.readError m) ∧
          extractAllFiles fs archives lower (x :: ys) =
            (o :: (extractAllFiles fs archives lower ys).1,
             (extractAllFiles fs archives lower ys).2)) := by
  constructor
  · intro a k m h
    simp [archiveReadFile, h]
  · intro fs archives lower x ys h
    rcases h with ⟨q, hq⟩ | ⟨m, hm⟩
    · exact ⟨Outcome.notFound, Or.inl rfl, by simp only [extractAllFiles, hq]⟩
    · exact ⟨Outcome.readError m, Or.inr ⟨m, rfl⟩, by simp only [extractAllFiles, hm]⟩

/-- Witness for C2: a batch of `"x"` then `"y"` against a panicking
archive — the panic on `"x"` is recorded as a read-error skip and `"y"`
is still processed. -/
theorem panic_becomes_read_error_and_is_skipped_witness :
    ∃ o, (o = Outcome.notFound ∨ ∃ m, o = Outcome.readError m) ∧
      extractAllFiles fsOk [archPanic] false [[120], [121]] =
        (o :: (extractAllFiles fsOk [archPanic] false [[121]]).1,
         (extractAllFiles fsOk [archPanic] false [[121]]).2) :=
  panic_becomes_read_error_and_is_skipped.2 fsOk [archPanic] false [120] [[121]]
    (Or.inr ⟨"boom", rfl⟩)

/-! ## C3: fatal propagation of directory/write failures -/

/-- C3: when the read of `x` succeeds but creating the destination
directory (or, with the directory created, writing the bytes) fails, the
error is not matched by the NotFound/ReadError skip cases:
`extractAllFiles` on a batch starting with `x` aborts at once with a
fatal error and the remaining batch contributes nothing. -/
theorem fatal_write_failure_aborts_batch (fs : FS) (archives : List MPQ) (lower : Bool)
    (x : GoStr) (ys : List GoStr) (data : List Nat) (name : GoStr)
    (hread : readFile archives x = RunResult.ok (data, name))
    (hfail : (∃ m, fs.mkdirAll (goDir (dstPathOf name x lower)) = some m) ∨
             (fs.mkdirAll (goDir (dstPathOf name x lower)) = none ∧
              ∃ m, fs.writeFile (dstPathOf name x lower) data = some m)) :
    ∃ m, extractAllFiles fs archives lower (x :: ys) =
      ([], some (Halt.fatal (GoErr.other m))) := by
  have hex : ∃ m, extractFile fs archives x lower = RunResult.err (GoErr.other m) := by
    rcases hfail with ⟨m, hm⟩ | ⟨hok, m, hm⟩
    · exact ⟨m, by simp only [extractFile, hread, hm]⟩
    · exact ⟨m, by simp only [extractFile, hread, hok, hm]⟩
  obtain ⟨m, hm⟩ := hex
  exact ⟨m, by simp only [extractAllFiles, hm]⟩

/-- Witness for C3: directory creation fails for the first path of a
two-path batch, so the run aborts fatally with no outcome recorded. -/
theorem fatal_write_failure_aborts_batch_witness :
    ∃ m, extractAllFiles fsMkdirFails [archA] false [[120], [121]] =
      ([], some (Halt.fatal (GoErr.other m))) :=
  fatal_write_failure_aborts_batch fsMkdirFails [archA] false [120] [[121]] [49] [97]
    rfl (Or.inl ⟨"permission denied", rfl⟩)

/-! ## C6: form of the lookup keys passed to the collaborator -/

theorem replaceByte_id_of_not_mem (a b : Nat) (l : GoStr) (h : a ∉ l) :
    replaceByte a b l = l := by
  induction l with
  | nil => rfl
  | cons c rest ih =>
    simp only [List.mem_cons, not_or] at h
    obtain ⟨hca, hrest⟩ := h
    simp only [replaceByte, List.map_cons] at ih ⊢
    rw [if_neg (fun he => hca he.symm), ih hrest]

theorem lowerByte_fixed_on_key (p : GoStr) (b : Nat)
    (hb : b ∈ replaceByte 47 92 (goToLower p)) : lowerByte b = b := by
  simp only [replaceByte, goToLower, List.map_map, List.mem_map] at hb
  obtain ⟨c, -, hc⟩ := hb
  simp only [Function.comp_apply] at hc
  by_cases h47 : lowerByte c = 47
  · rw [if_pos h47] at hc
    rw [← hc]
    decide
  · rw [if_neg h47] at hc
    rw [← hc]
    exact lowerByte_idem c

theorem goToLower_fixed (l : GoStr) (h : ∀ b ∈ l, lowerByte b = b) :
    goToLower l = l := by
  induction l with
  | nil => rfl
  | cons c rest ih =>
    simp only [goToLower, List.map_cons] at ih ⊢
    rw [h c (List.mem_cons_self c rest), ih fun b hb => h b (List.mem_cons_of_mem c hb)]

/-- A "spy" archive holding exactly the key `"A"` (upper case): it can
tell an upper-case lookup key from a lower-cased one. -/
def spyUpperA : MPQ :=
  { fileName := [115], fileExists := fun k => decide (k = [65]),
    readFile := fun _ => .ok [], getFileList := .ok [] }

/-- A "spy" archive holding exactly the key `"\a"` (with a leading
backslash). -/
def spyLeadingBack : MPQ :=
  { fileName := [116], fileExists := fun k => decide (k = [92, 97]),
    readFile := fun _ => .ok [49], getFileList := .ok [] }

/-- C6 counterexample: the claim that every lookup key is lower-cased and
free of a leading separator is false.  Listfile filtering passes the line
`"A"` to `FileExists` verbatim (the spy archive holding exactly `"A"`
matches, so the key was not lower-cased, and `goToLower "A" ≠ "A"`); and
read resolution of `"//a"` strips only one of the two leading separators,
passing the key `"\a"` — the spy archive holding exactly `"\a"` serves
the read. -/
theorem lookup_keys_counterexample :
    (getFilePathsFromListfile [spyUpperA] [[65]] = [[65]] ∧ goToLower [65] ≠ [65]) ∧
      (readFileKey [47, 47, 97] = 92 :: [97] ∧
        readFile [spyLeadingBack] [47, 47, 97] = RunResult.ok ([49], [116])) := by
  refine ⟨⟨rfl, by decide⟩, ⟨by decide, rfl⟩⟩

/-- C6 amended: every lookup key passed to the collaborator is
backslash-separated (it contains no forward separator) and has a single
leading backslash stripped; read-resolution keys (`readFileKey`) are
additionally lower-cased, while listfile-filtering keys
(`denormalize line`) preserve the line's original casing — a line already
in native form is passed through byte-for-byte. -/
theorem lookup_keys_amended :
    (∀ p : GoStr, 47 ∉ readFileKey p ∧ goToLower (readFileKey p) = readFileKey p) ∧
      (∀ line : GoStr, 47 ∉ denormalize line) ∧
      (∀ line : GoStr, 47 ∉ line → line.head? ≠ some 92 → denormalize line = line) := by
  refine ⟨fun p => ?_, fun line => ?_, fun line h47 hhead => ?_⟩
  · have hmem := mem_replaceByte_ne 47 92 (by decide) (goToLower p)
    have hlow : goToLower (replaceByte 47 92 (goToLower p)) =
        replaceByte 47 92 (goToLower p) :=
      goToLower_fixed _ (lowerByte_fixed_on_key p)
    cases hm : replaceByte 47 92 (goToLower p) with
    | nil =>
      simp only [readFileKey]
      rw [hm]
      exact ⟨by simp, rfl⟩
    | cons b rest =>
      rw [hm] at hmem hlow
      simp only [goToLower, List.map_cons, List.cons.injEq] at hlow
      simp only [List.mem_cons, not_or] at hmem
      simp only [readFileKey, hm]
      by_cases hb : b = 92
      · rw [if_pos hb]
        exact ⟨fun hx => hmem.2 hx, hlow.2⟩
      · rw [if_neg hb]
        refine ⟨?_, ?_⟩
        · intro hx
          rcases List.mem_cons.mp hx with hx | hx
          · exact hmem.1 hx
          · exact hmem.2 hx
        · simp only [goToLower, List.map_cons]
          rw [hlow.1, hlow.2]
  · have hmem := mem_replaceByte_ne 47 92 (by decide) line
    unfold denormalize
    by_cases hh : (replaceByte 47 92 line).head? = some 92
    · simp only [if_pos hh]
      intro hx
      exact hmem (List.mem_of_mem_tail hx)
    · simp only [if_neg hh]
      exact hmem
  · have hid : replaceByte 47 92 line = line := replaceByte_id_of_not_mem 47 92 line h47
    unfold denormalize
    rw [hid, if_neg hhead]

/-- Witness for C6 (amended) at concrete inputs: the read-resolution key
of `"A/B"`, the listfile key of `"a/b"`, and the pass-through of the
already-native line `"d"`. -/
theorem lookup_keys_amended_witness :
    (47 ∉ readFileKey [65, 47, 66] ∧
        goToLower (readFileKey [65, 47, 66]) = readFileKey [65, 47, 66]) ∧
      47 ∉ denormalize [97, 47, 98] ∧ denormalize [100] = [100] :=
  ⟨lookup_keys_amended.1 [65, 47, 66],
   lookup_keys_amended.2.1 [97, 47, 98],
   lookup_keys_amended.2.2 [100] (by decide) (by decide)⟩

/-! ## C7: listfile filtering against the loaded archives -/

theorem getFilePathsFromListfile_eq_filter (archives : List MPQ) (lines : List GoStr) :
    getFilePathsFromListfile archives lines =
      (lines.map denormalize).filter (fun k => archives.any fun a => a.fileExists k) := by
  induction lines with
  | nil => rfl
  | cons line rest ih =>
    simp only [getFilePathsFromListfile, List.map_cons, List.filter_cons]
    by_cases h : (archives.any fun a => a.fileExists (denormalize line)) = true
    · rw [if_pos h, h, if_pos rfl, ih]
    · rw [if_neg h, Bool.not_eq_true] at *
      rw [h, ih]
      simp

theorem getFilePathsFromBundledListfile_eq_filter (archives : List MPQ)
    (lines : List GoStr) :
    getFilePathsFromBundledListfile archives lines =
      (lines.map denormalize).filter (fun k => archives.any fun a => a.fileExists k) := by
  induction lines with
  | nil => rfl
  | cons line rest ih =>
    simp only [getFilePathsFromBundledListfile, List.map_cons, List.filter_cons]
    by_cases h : (archives.any fun a => a.fileExists (denormalize line)) = true
    · rw [if_pos h, h, if_pos rfl, ih]
    · rw [if_neg h, Bool.not_eq_true] at *
      rw [h, ih]
      simp

/-- C7: for a line of an external or bundled listfile, the resolved
candidate list contains the line's native-form conversion if and only if
at least one loaded archive reports that this conversion exists. -/
theorem listfile_line_kept_iff_some_archive_has_it (archives : List MPQ)
    (lines : List GoStr) (line : GoStr) (hmem : line ∈ lines) :
    ((denormalize line ∈ getFilePathsFromListfile archives lines) ↔
        ∃ a ∈ archives, a.fileExists (denormalize line) = true) ∧
      ((denormalize line ∈ getFilePathsFromBundledListfile archives lines) ↔
        ∃ a ∈ archives, a.fileExists (denormalize line) = true) := by
  rw [getFilePathsFromListfile_eq_filter, getFilePathsFromBundledListfile_eq_filter]
  have h : (denormalize line ∈ (lines.map denormalize).filter
      (fun k => archives.any fun a => a.fileExists k)) ↔
      ∃ a ∈ archives, a.fileExists (denormalize line) = true := by
    rw [List.mem_filter]
    constructor
    · rintro ⟨-, hp⟩
      exact List.any_eq_true.mp hp
    · intro hex
      exact ⟨List.mem_map_of_mem denormalize hmem, List.any_eq_true.mpr hex⟩
  exact ⟨h, h⟩

/-- Witness for C7: with the always-containing archive `archA` loaded,
the listfile line `"A"` is kept by both the external and the bundled
filtering. -/
theorem listfile_line_kept_iff_some_archive_has_it_witness :
    ((denormalize [65] ∈ getFilePathsFromListfile [archA] [[65]]) ↔
        ∃ a ∈ [archA], a.fileExists (denormalize [65]) = true) ∧
      ((denormalize [65] ∈ getFilePathsFromBundledListfile [archA] [[65]]) ↔
        ∃ a ∈ [archA], a.fileExists (denormalize [65]) = true) :=
  listfile_line_kept_iff_some_archive_has_it [archA] [[65]] [65] (by decide)

/-! ## C8: explicit list takes precedence over every other strategy -/

theorem goSplit_ne_nil (sep : Nat) (s : GoStr) : goSplit sep s ≠ [] := by
  cases s with
  | nil => simp [goSplit]
  | cons b rest =>
    unfold goSplit
    by_cases h : b = sep
    · simp [h]
    · simp only [if_neg h]
      split <;> simp

/-- C8: with a non-empty explicit `-files` list, the candidate set is
exactly the comma-split, denormalized explicit entries — for every value
of the `-a`/`-embedded` flags, of the listfile path, of the listfile and
bundled contents, and of the loaded archives.  In particular no listfile
is read, no embedded listing is queried, and no archive-existence
filtering is applied; only the path conversion is. -/
theorem explicit_list_takes_precedence (raw : GoStr) (hraw : raw ≠ []) :
    (∀ (all : Bool) (listfilePath : GoStr) (listfileLines : List GoStr)
        (archives : List MPQ),
        selectFilePathsV1 raw all listfilePath listfileLines archives =
          Except.ok ((goSplit 44 raw).map denormalize)) ∧
      (∀ (all embedded : Bool) (listfilePath : GoStr)
          (listfileLines bundledLines : List GoStr) (archives : List MPQ),
          selectFilePathsV2 raw all embedded listfilePath listfileLines bundledLines
            archives = Except.ok ((goSplit 44 raw).map denormalize)) := by
  have hlen : 0 < raw.length := List.length_pos.mpr hraw
  obtain ⟨g, gs, hm⟩ : ∃ g gs, goSplit 44 raw = g :: gs := by
    cases hsp : goSplit 44 raw with
    | nil => exact absurd hsp (goSplit_ne_nil 44 raw)
    | cons g gs => exact ⟨g, gs, rfl⟩
  constructor
  · intro all listfilePath listfileLines archives
    simp [selectFilePathsV1, hlen, hm, Except.map]
  · intro all embedded listfilePath listfileLines bundledLines archives
    simp [selectFilePathsV2, hlen, hm, Except.map]

/-- Witness for C8: `-files "a,b"` with an external listfile path and the
embedded flag also supplied still selects exactly `["a", "b"]`. -/
theorem explicit_list_takes_precedence_witness :
    selectFilePathsV1 [97, 44, 98] false [108] [[120]] [] = Except.ok [[97], [98]] ∧
      selectFilePathsV2 [97, 44, 98] false true [108] [[120]] [[121]] [] =
        Except.ok [[97], [98]] := by
  have h := explicit_list_takes_precedence [97, 44, 98] (by decide)
  exact ⟨(h.1 false [108] [[120]] []).trans
          (congrArg Except.ok (by decide)),
        (h.2 false true [108] [[120]] [[121]] []).trans
          (congrArg Except.ok (by decide))⟩

/-! ## C9: lowercase-destination policy -/

/-- C9: with the `-lower` flag set, the written destination path is
exactly the lower-cased form of the flag-unset destination path; with the
flag unset the destination is the byte-for-byte concatenation
`_dump_/<archive dir>/<path>` with only separators replaced, so the input
casing of the resource path is preserved; and every successful
`extractFile` writes at `dstPathOf`. -/
theorem lowercase_destination_policy :
    (∀ archiveName filePath : GoStr,
        dstPathOf archiveName filePath true =
          goToLower (dstPathOf archiveName filePath false)) ∧
      (∀ archiveName filePath : GoStr, pathFileName archiveName ≠ [] → filePath ≠ [] →
        dstPathOf archiveName filePath false =
          dumpRoot ++ 47 :: (replaceByte 92 47 (pathFileName archiveName) ++
            47 :: replaceByte 92 47 filePath)) ∧
      (∀ (fs : FS) (archives : List MPQ) (x : GoStr) (lower : Bool)
          (dst : GoStr) (d : List Nat),
          extractFile fs archives x lower = RunResult.ok (dst, d) →
          ∃ data name, readFile archives x = RunResult.ok (data, name) ∧
            dst = dstPathOf name x lower ∧ d = data) := by
  refine ⟨fun an fp => by simp [dstPathOf], fun an fp hdir hfp => ?_, ?_⟩
  · obtain ⟨d0, dr, hd⟩ := List.exists_cons_of_ne_nil hdir
    obtain ⟨p0, pr, hp⟩ := List.exists_cons_of_ne_nil hfp
    have hjoin : goJoin [dumpRoot, pathFileName an, fp] =
        dumpRoot ++ [47] ++ pathFileName an ++ [47] ++ fp := by
      rw [hd, hp]
      simp [goJoin, List.intercalate, List.intersperse, dumpRoot]
    show normalize (goJoin [dumpRoot, pathFileName an, fp]) = _
    rw [hjoin]
    simp only [normalize, replaceByte, List.map_append]
    rw [hd, hp]
    simp [List.append_assoc]
    decide
  · intro fs archives x lower dst d h
    cases hr : readFile archives x with
    | crash m =>
      simp only [extractFile, hr] at h
      exact absurd h (by simp)
    | err e =>
      simp only [extractFile, hr] at h
      exact absurd h (by simp)
    | ok pair =>
      obtain ⟨data, name⟩ := pair
      refine ⟨data, name, rfl, ?_⟩
      simp only [extractFile, hr] at h
      cases hm : fs.mkdirAll (goDir (dstPathOf name x lower)) with
      | some m =>
        rw [hm] at h
        exact absurd h (by simp)
      | none =>
        rw [hm] at h
        cases hw : fs.writeFile (dstPathOf name x lower) data with
        | some m =>
          rw [hw] at h
          exact absurd h (by simp)
        | none =>
          rw [hw] at h
          simp only [RunResult.ok.injEq, Prod.mk.injEq] at h
          exact ⟨h.1.symm, h.2.symm⟩

/-- Witness for C9: archive name `"a.m"` and path `"b"`. -/
theorem lowercase_destination_policy_witness :
    dstPathOf [97, 46, 109] [98] true = goToLower (dstPathOf [97, 46, 109] [98] false) ∧
      dstPathOf [97, 46, 109] [98] false =
        dumpRoot ++ 47 :: (replaceByte 92 47 (pathFileName [97, 46, 109]) ++
          47 :: replaceByte 92 47 [98]) :=
  ⟨lowercase_destination_policy.1 [97, 46, 109] [98],
   lowercase_destination_policy.2.1 [97, 46, 109] [98] (by decide) (by decide)⟩

end MpqViewer
